import Mathlib

/-!
# Verification of the `sign-addon` status-polling workflow

This development embeds the core of `src/amo-client.js` (the current version
of the file): the status-polling state machine in `Client.waitForSignedAddon`
with its two classifiers (`checkValidationStatus` and `checkSignedStatus`),
the submit-response handling in `Client.sign`, the download orchestration in
`Client.downloadSignedFiles`, and the argument sanitisation in
`Client.debug`/`redact`.

JavaScript booleans and truthiness are modelled explicitly where the source
relies on them (`!canBeAutoSigned` on a possibly-missing field, `!!response.error`
on a possibly-empty string, `if (allDownloads.length)` on a number).
Asynchronous control flow is embedded as an explicit transition function on a
session record; each resolve/reject/schedule site of the source becomes one
branch of the transition.
-/

namespace SignAddon

/-- A file descriptor returned by the API
(`{ signed: boolean, download_url: string }`). -/
structure File where
  signed : Bool
  download_url : String
deriving DecidableEq, Repr

/-- A polled status report (`SigningStatus` in the source).  The
`automated_signing` field is an `Option Bool`: `none` models the field being
absent (`undefined`) in the JSON payload, as handled by the source's
truthiness checks.  An absent `files` field is modelled by the empty list
(the source guards with `status.files && status.files.length > 0`, and both
absence and emptiness take the same branch). -/
structure SigningStatus where
  guid : String
  active : Bool
  automated_signing : Option Bool
  files : List File
  processed : Bool
  reviewed : Bool
  valid : Bool
  validation_url : String
deriving DecidableEq, Repr

/-- JavaScript truthiness of a possibly-absent boolean field:
`undefined` is falsy. -/
def optBoolTruthy : Option Bool → Bool
  | none => false
  | some b => b

/-- JavaScript truthiness of a possibly-absent string field:
`undefined` and `""` are falsy. -/
def optStrTruthy : Option String → Bool
  | none => false
  | some s => s != ""

/-- The polling phases of one `waitForSignedAddon` call: the
`checkValidationStatus` loop and the `checkSignedStatus` loop. -/
inductive Phase
  | validating
  | signing
deriving DecidableEq, Repr

/-- What one classification of a status report decides:
keep polling (in the given phase), or reach one of the three terminal
classifications.  `keepPolling .signing` from the validating phase is the
advance-to-signing transition (`checkValidationStatus` invoking
`checkSignedStatus`). -/
inductive Outcome
  | keepPolling (next : Phase)
  | doneSuccess (guid : String) (files : List File)
  | doneInvalid (errorDetails : String)
  | doneNeedsReview
deriving DecidableEq, Repr

/-- The guard `signedAndReady` from `checkSignedStatus`:
`status.valid && status.active && status.reviewed && status.files &&
status.files.length > 0`. -/
def signedAndReady (status : SigningStatus) : Bool :=
  status.valid && status.active && status.reviewed && !status.files.isEmpty

/-- The guard `requiresManualReview` from the current `checkSignedStatus`:
`status.valid && !canBeAutoSigned` where
`canBeAutoSigned = status.automated_signing` (truthiness of a possibly
absent field). -/
def requiresManualReview (status : SigningStatus) : Bool :=
  status.valid && !(optBoolTruthy status.automated_signing)

/-- The classification performed by `checkValidationStatus` on one report:
`processed` false keeps polling in the validating phase; `processed` true and
`valid` false resolves `VALIDATION_FAILED` with `status.validation_url`;
`processed` true and `valid` true advances to the signing loop. -/
def checkValidationStatus (status : SigningStatus) : Outcome :=
  if status.processed then
    if status.valid then Outcome.keepPolling Phase.signing
    else Outcome.doneInvalid status.validation_url
  else Outcome.keepPolling Phase.validating

/-- The classification performed by the current `checkSignedStatus` on one
report, mirroring the source's branch structure:
`if (signedAndReady || requiresManualReview)` with the
`requiresManualReview` resolution short-circuiting before the
`signedAndReady` one, and the `else` branch scheduling the next poll. -/
def checkSignedStatus (status : SigningStatus) : Outcome :=
  if signedAndReady status || requiresManualReview status then
    if requiresManualReview status then Outcome.doneNeedsReview
    else Outcome.doneSuccess status.guid status.files
  else Outcome.keepPolling Phase.signing

/-- The guard `apiReportsAutoSigning` from the older `checkSignedStatus`
(`typeof data.automated_signing !== 'undefined'`). -/
def apiReportsAutoSigning (status : SigningStatus) : Bool :=
  status.automated_signing != none

/-- The classification performed by the older version of `checkSignedStatus`
(the first half of `amo-client.js`): a single loop whose
`requiresManualReview` guard additionally requires `apiReportsAutoSigning`,
and which resolves failure when `processed && !valid`. -/
def checkSignedStatusOld (data : SigningStatus) : Outcome :=
  let failedValidation := !data.valid
  let ready := signedAndReady data
  let manualReview :=
    data.valid && apiReportsAutoSigning data && !(optBoolTruthy data.automated_signing)
  if data.processed && (failedValidation || ready || manualReview) then
    if manualReview then Outcome.doneNeedsReview
    else if ready then Outcome.doneSuccess data.guid data.files
    else Outcome.doneInvalid data.validation_url
  else Outcome.keepPolling Phase.signing

/-- The site-selection relation of the classifiers: `Selects phase status o`
holds exactly when, with the poller in `phase` and the report `status`
received, the source reaches the resolve/schedule/advance site producing `o`.
Each constructor's premises are the branch conditions along the code path to
that site. -/
inductive Selects : Phase → SigningStatus → Outcome → Prop
  | remainValidating (status : SigningStatus)
      (hp : status.processed = false) :
      Selects Phase.validating status (Outcome.keepPolling Phase.validating)
  | advanceToSigning (status : SigningStatus)
      (hp : status.processed = true) (hv : status.valid = true) :
      Selects Phase.validating status (Outcome.keepPolling Phase.signing)
  | invalid (status : SigningStatus)
      (hp : status.processed = true) (hv : status.valid = false) :
      Selects Phase.validating status (Outcome.doneInvalid status.validation_url)
  | needsReview (status : SigningStatus)
      (hg : (signedAndReady status || requiresManualReview status) = true)
      (hm : requiresManualReview status = true) :
      Selects Phase.signing status Outcome.doneNeedsReview
  | success (status : SigningStatus)
      (hg : (signedAndReady status || requiresManualReview status) = true)
      (hm : requiresManualReview status = false)
      (hr : signedAndReady status = true) :
      Selects Phase.signing status (Outcome.doneSuccess status.guid status.files)
  | remainSigning (status : SigningStatus)
      (hg : (signedAndReady status || requiresManualReview status) = false) :
      Selects Phase.signing status (Outcome.keepPolling Phase.signing)

/-- The error codes `SignErrorCode` from the source:
`"SERVER_FAILURE" | "ADDON_NOT_AUTO_SIGNED" | "VALIDATION_FAILED"`. -/
inductive SignErrorCode
  | SERVER_FAILURE
  | ADDON_NOT_AUTO_SIGNED
  | VALIDATION_FAILED
deriving DecidableEq, Repr

/-- The result record `SignResult` from the source: `{ success, id, downloadedFiles, errorCode,
errorDetails }`, with `null` fields modelled as `none`. -/
structure SignResult where
  success : Bool
  id : Option String
  downloadedFiles : Option (List String)
  errorCode : Option SignErrorCode
  errorDetails : Option String
deriving DecidableEq, Repr

/-- The `SignResult` resolved by `sign()` when the submit body carried an
explicit error message. -/
def serverFailureResult (msg : String) : SignResult :=
  { success := false, id := none, downloadedFiles := none,
    errorCode := some SignErrorCode.SERVER_FAILURE, errorDetails := some msg }

/-- The `SignResult` resolved by `checkValidationStatus` for a processed but
invalid report. -/
def validationFailedResult (validationUrl : String) : SignResult :=
  { success := false, id := none, downloadedFiles := none,
    errorCode := some SignErrorCode.VALIDATION_FAILED,
    errorDetails := some validationUrl }

/-- The `SignResult` resolved by `checkSignedStatus` for a valid report that
cannot be automatically signed. -/
def needsReviewResult : SignResult :=
  { success := false, id := none, downloadedFiles := none,
    errorCode := some SignErrorCode.ADDON_NOT_AUTO_SIGNED, errorDetails := none }

/-!
## `formatResponse` and the timeout message
-/

/-- The function `formatResponse` applied to an already-stringified response: truncate to
500 characters, appending `...` (`prettyResponse.substring(0, 500)`). -/
def formatResponse (response : String) : String :=
  if 500 < response.length then String.take response 500 ++ "..." else response

/-- Rendering of one `File` by `JSON.stringify` (object-key order as
received from the API; string contents assumed not to need escaping). -/
def File.toJson (f : File) : String :=
  "\x7b\"signed\":" ++ (if f.signed then "true" else "false")
    ++ ",\"download_url\":\"" ++ f.download_url ++ "\"\x7d"

/-- Rendering of a `SigningStatus` by `JSON.stringify`: fields in the order
of the API schema; an absent (`undefined`) `automated_signing` field is
omitted, as `JSON.stringify` does. -/
def SigningStatus.toJson (st : SigningStatus) : String :=
  "\x7b\"guid\":\"" ++ st.guid ++ "\""
    ++ ",\"active\":" ++ (if st.active then "true" else "false")
    ++ (match st.automated_signing with
        | none => ""
        | some b => ",\"automated_signing\":" ++ (if b then "true" else "false"))
    ++ ",\"files\":[" ++ String.intercalate "," (st.files.map File.toJson) ++ "]"
    ++ ",\"processed\":" ++ (if st.processed then "true" else "false")
    ++ ",\"reviewed\":" ++ (if st.reviewed then "true" else "false")
    ++ ",\"valid\":" ++ (if st.valid then "true" else "false")
    ++ ",\"validation_url\":\"" ++ st.validation_url ++ "\""
    ++ "\x7d"

/-- The message of the error rejected by the abort timer:
``oneLine`Signing took too long to complete; last status:
${formatResponse(lastStatus || '[null]')}` `` — the last seen report is
stringified and truncated by `formatResponse`, and `'[null]'` stands in when
no report was ever received. -/
def timeoutMessage (lastStatus : Option SigningStatus) : String :=
  "Signing took too long to complete; last status: "
    ++ formatResponse (match lastStatus with
        | none => "[null]"
        | some st => st.toJson)

/-!
## `downloadSignedFiles`
-/

/-- The function `getUrlBasename` from the source: the basename of the URL's path
(everything after the last slash), with the query string stripped at the
first question mark. -/
def getUrlBasename (absUrl : String) : String :=
  let urlPath := (absUrl.splitOn "/").getLastD ""
  ((urlPath.splitOn "?").headD "")

/-- The local file name `download()` writes to:
`path.join(this.downloadDir, getUrlBasename(fileUrl))`. -/
def downloadFileName (downloadDir : String) (fileUrl : String) : String :=
  downloadDir ++ "/" ++ getUrlBasename fileUrl

/-- The queueing pass of `downloadSignedFiles` (the `signedFiles.forEach`
loop): each `signed` file pushes a download of its `download_url` onto
`allDownloads`; each unsigned file sets `foundUnsignedFiles` and is skipped.
Returns the queued URLs in order together with the flag. -/
def queueDownloads (signedFiles : List File) : List String × Bool :=
  signedFiles.foldl
    (fun acc file =>
      if file.signed then (acc.1 ++ [file.download_url], acc.2)
      else (acc.1, true))
    ([], false)

/-- The error message thrown by `downloadSignedFiles` when no download was
queued (`oneLine` collapses the template to a single line). -/
def noSignedFilesMessage : String :=
  "The XPI was processed but no signed files were found. Check your "
    ++ "manifest and make sure it targets Firefox as an application."

/-- The decision logic of `downloadSignedFiles`: queue one download per
signed file; if any were queued, resolve `success: true` with the local file
names the downloads settle on; otherwise throw the no-signed-files error.
(The streaming of each accepted download is external I/O; a transport
failure there rejects the surrounding promise and never produces a
`SignResult`.) -/
def downloadSignedFiles (downloadDir : String) (signedFiles : List File) :
    Except String SignResult :=
  let q := queueDownloads signedFiles
  if q.1.length != 0 then
    Except.ok
      { success := true, id := none,
        downloadedFiles := some (q.1.map (downloadFileName downloadDir)),
        errorCode := none, errorDetails := none }
  else
    Except.error noSignedFilesMessage

/-!
## The submit-response handling of `sign()`
-/

/-- The JSON body of the submit response, as read by `sign()`:
`{ error?: string, url: string }`.  `error: none` models an absent field and
`some ""` an empty one; both are falsy under `!!response.error`. -/
structure SubmitBody where
  error : Option String
  url : String
deriving DecidableEq, Repr

/-- What `sign()` does with the submit response:
continue into `waitForSignedAddon(response.url)`, resolve a structured
failure, or throw a transport error (the thrown message also embeds the
request URL, the formatted body and the response headers, which are outside
this model; the status code identifies the throw). -/
inductive SubmitStep
  | poll (statusUrl : String)
  | resolved (r : SignResult)
  | thrown (statusCode : Nat)
deriving DecidableEq, Repr

/-- The response handling of `sign()` (current version): statuses outside
`[200, 201, 202]` or a truthy body-level `error` field leave the happy path;
a truthy `error` resolves `SERVER_FAILURE` with that message, otherwise the
bad response is thrown; on the happy path polling starts at `response.url`. -/
def signSubmitStep (statusCode : Nat) (body : SubmitBody) : SubmitStep :=
  let acceptableStatuses : List Nat := [200, 201, 202]
  let receivedError := optStrTruthy body.error
  if !(acceptableStatuses.contains statusCode) || receivedError then
    match body.error with
    | some s =>
        if s != "" then SubmitStep.resolved (serverFailureResult s)
        else SubmitStep.thrown statusCode
    | none => SubmitStep.thrown statusCode
  else SubmitStep.poll body.url

/-!
## The polling session of `waitForSignedAddon`

The promise executor of `waitForSignedAddon` is embedded as a transition
function on a session record.  The record keeps the phase of the polling
loop, the `lastStatus` variable, whether the `statusCheckTimeout` (next
poll) and `abortTimeout` timers are pending, how many times an abort timer
has been armed (`_setAbortTimeout` is invoked once, at entry), and the
settlement of the promise (`Except.ok` for `resolve`, `Except.error` for
`reject`).  The events are the settlement of one status `GET` and the abort
timer firing.
-/

/-- The ephemeral state of one `waitForSignedAddon` call. -/
structure Session where
  phase : Phase
  lastStatus : Option SigningStatus
  /-- The pending `statusCheckTimeout` timer, with its delay, if scheduled. -/
  pollPending : Option Nat
  /-- Whether the `abortTimeout` timer is pending. -/
  abortPending : Bool
  /-- How many times `_setAbortTimeout` has been invoked for this session. -/
  abortArms : Nat
  /-- The settlement of the returned promise, once settled. -/
  outcome : Option (Except String SignResult)
deriving Repr

/-- Events delivered to a polling session. -/
inductive Event
  | pollResult (status : SigningStatus)
  | pollError (msg : String)
  | abortFires
deriving Repr

/-- The session as set up by the body of `waitForSignedAddon`: the
validating loop starts (its first `GET` is immediately in flight, so no poll
timer is pending) and the single abort timer is armed. -/
def initSession : Session :=
  { phase := Phase.validating, lastStatus := none, pollPending := none,
    abortPending := true, abortArms := 1, outcome := none }

/-- One transition of the polling session.  `interval` is
`this.statusCheckInterval` and `downloadDir` is `this.downloadDir`.  A
settled session absorbs every event (both timers have been cleared and a
settled promise ignores further `resolve`/`reject` calls). -/
def step (interval : Nat) (downloadDir : String) (s : Session) (e : Event) :
    Session :=
  match s.outcome with
  | some _ => s
  | none =>
    match e with
    | Event.abortFires =>
        if s.abortPending then
          { s with
            abortPending := false
            pollPending := none
            outcome := some (Except.error (timeoutMessage s.lastStatus)) }
        else s
    | Event.pollError msg =>
        { s with
          abortPending := false
          outcome := some (Except.error msg) }
    | Event.pollResult status =>
        let s := { s with lastStatus := some status }
        match s.phase with
        | Phase.validating =>
            if status.processed then
              if status.valid then
                { s with phase := Phase.signing }
              else
                { s with
                  abortPending := false
                  outcome := some (Except.ok
                    (validationFailedResult status.validation_url)) }
            else
              { s with pollPending := some interval }
        | Phase.signing =>
            if signedAndReady status || requiresManualReview status then
              if requiresManualReview status then
                { s with
                  abortPending := false
                  outcome := some (Except.ok needsReviewResult) }
              else
                { s with
                  abortPending := false
                  outcome := some
                    (match downloadSignedFiles downloadDir status.files with
                     | Except.ok r => Except.ok { r with id := some status.guid }
                     | Except.error m => Except.error m) }
            else
              { s with pollPending := some interval }

/-- The set of `SignResult` values the workflow can resolve with: the
server-reported submit failure, the two terminal polling failures, and the
download success merged with the report's `guid`
(`resolve({ ...result, id: status.guid })`). -/
inductive WorkflowResult : SignResult → Prop
  | serverFailure (msg : String) : WorkflowResult (serverFailureResult msg)
  | validationFailed (validationUrl : String) :
      WorkflowResult (validationFailedResult validationUrl)
  | needsReview : WorkflowResult needsReviewResult
  | signedSuccess (guid downloadDir : String) (files : List File)
      (r : SignResult)
      (hdl : downloadSignedFiles downloadDir files = Except.ok r) :
      WorkflowResult { r with id := some guid }

/-!
## `debug()` and `redact()`

`Client.debug` maps over its arguments: objects are deep-copied
(`deepcopy`) and the copy is redacted in place by `redact`, which replaces
truthy `Authorization`, `cookie` and `set-cookie` values of any `headers`
sub-object with `'<REDACTED>'` and recurses into every field.  To state that
the caller's objects are untouched, object identity is made explicit: values
are primitives or references into a heap of objects, `deepcopy` allocates
fresh objects at the end of the heap, and `redact` writes through
references.  Recursion is fuel-bounded (the source would not terminate on a
cyclic argument either; every theorem below holds for every fuel).
-/

/-- A JavaScript value as seen by `debug()`/`redact()`: a primitive
(`undefined`, `null`, a boolean, a number, a string) or a reference to a
heap object. -/
inductive Val
  | undef
  | null
  | bool (b : Bool)
  | num (n : Int)
  | str (s : String)
  | ref (a : Nat)
deriving DecidableEq, Repr

/-- JavaScript truthiness of a value (object references are always truthy;
`NaN` is outside the integer model). -/
def jsTruthy : Val → Bool
  | Val.undef => false
  | Val.null => false
  | Val.bool b => b
  | Val.num n => n != 0
  | Val.str s => s != ""
  | Val.ref _ => true

/-- The test `typeof v === 'object'` (references and `null`). -/
def typeofObject : Val → Bool
  | Val.null => true
  | Val.ref _ => true
  | _ => false

/-- An object: its fields in property order. -/
abbrev Obj := List (String × Val)

/-- The heap: objects addressed by position. -/
abbrev Heap := List Obj

/-- Property read `obj[key]` (a missing property is `undefined`). -/
def lookupField (obj : Obj) (key : String) : Val :=
  match obj.find? (fun p => p.1 == key) with
  | some p => p.2
  | none => Val.undef

/-- Property write `obj[key] = v` on an existing property. -/
def setField (obj : Obj) (key : String) (v : Val) : Obj :=
  obj.map (fun p => if p.1 == key then (p.1, v) else p)

/-- The header keys scrubbed by `redact`. -/
def redactedHeaders : List String := ["Authorization", "cookie", "set-cookie"]

/-- The in-place pass of `redact` over a `headers` object: each truthy
redacted header value is overwritten with `'<REDACTED>'`. -/
def redactHeaderKeys (obj : Obj) : Obj :=
  redactedHeaders.foldl
    (fun o hdr =>
      if jsTruthy (lookupField o hdr) then setField o hdr (Val.str "<REDACTED>")
      else o)
    obj

mutual

/-- The external `deepcopy` library, modelled: copy the object graph reachable
from a value, allocating the copies as fresh objects at the end of the heap
and returning the new root.  Primitives (and `null`, for which `deepcopy` is
the identity) copy to themselves.  The fuel bounds the copied depth; with
fuel exhausted a reference degrades to a primitive (never reached on an
acyclic graph when the fuel exceeds its depth, and irrelevant to the frame
theorems below). -/
def copyVal : Nat → Heap → Val → Heap × Val
  | _, h, Val.undef => (h, Val.undef)
  | _, h, Val.null => (h, Val.null)
  | _, h, Val.bool b => (h, Val.bool b)
  | _, h, Val.num n => (h, Val.num n)
  | _, h, Val.str s => (h, Val.str s)
  | 0, h, Val.ref _ => (h, Val.undef)
  | Nat.succ fuel, h, Val.ref a =>
      let p := copyFields fuel h (h.getD a [])
      (p.1 ++ [p.2], Val.ref p.1.length)

/-- Copy every field value of an object (the per-field part of `deepcopy`). -/
def copyFields : Nat → Heap → Obj → Heap × Obj
  | _, h, [] => (h, [])
  | fuel, h, (k, v) :: rest =>
      let p := copyVal fuel h v
      let q := copyFields fuel p.1 rest
      (q.1, (k, p.2) :: q.2)

end

mutual

/-- The function `redact` as a heap transformer.  On a reference: first the `headers`
field, when it refers to an object, has its truthy redacted header values
overwritten in place (`obj.headers[hdr] = '<REDACTED>'`; when `headers` is a
truthy primitive the assignments are silent no-ops); then `redact` recurses
into every field of the object (`obj[key] = redact(obj[key])` — `redact`
returns its argument, so the reassignment itself changes nothing).
Non-objects (and `null`) are returned unchanged with no heap effect. -/
def redactVal : Nat → Heap → Val → Heap
  | 0, h, _ => h
  | Nat.succ fuel, h, v =>
      match v with
      | Val.ref a =>
          let obj := h.getD a []
          let h1 :=
            match lookupField obj "headers" with
            | Val.ref ha => h.set ha (redactHeaderKeys (h.getD ha []))
            | _ => h
          redactFields fuel h1 (h1.getD a [])
      | _ => h

/-- The recursion of `redact` over the fields of an object. -/
def redactFields : Nat → Heap → Obj → Heap
  | _, h, [] => h
  | fuel, h, (_, v) :: rest => redactFields fuel (redactVal fuel h v) rest

end

/-- One argument of `debug()`:
`if (typeof newVal === 'object') { newVal = deepcopy(newVal); newVal = redact(newVal); }`.
Returns the heap after the call and the value passed on to the logger. -/
def debugArg (fuel : Nat) (h : Heap) (v : Val) : Heap × Val :=
  if typeofObject v then
    let p := copyVal fuel h v
    (redactVal fuel p.1 p.2, p.2)
  else (h, v)

/-- The `Array.prototype.map` over all arguments of `debug()`, threading the
heap. -/
def debugArgs : Nat → Heap → List Val → Heap × List Val
  | _, h, [] => (h, [])
  | fuel, h, v :: rest =>
      let p := debugArg fuel h v
      let q := debugArgs fuel p.1 rest
      (q.1, p.2 :: q.2)

/-!
## Theorems
-/

/-- C1: For every status report polled during the VALIDATING phase of an
unsettled session: `processed == false` keeps the session in VALIDATING,
schedules the next poll after the configured status-check interval and does
not settle; `processed == true && valid == false` settles the session by
resolving a result whose `errorCode` is `VALIDATION_FAILED` and whose
`errorDetails` is the report's `validation_url`; `processed == true &&
valid == true` advances the session to the SIGNING phase without
settling. -/
theorem validating_poll_classification
    (interval : Nat) (downloadDir : String) (s : Session)
    (status : SigningStatus)
    (hu : s.outcome = none) (hp : s.phase = Phase.validating) :
    (status.processed = false →
        (step interval downloadDir s (Event.pollResult status)).phase
            = Phase.validating ∧
        (step interval downloadDir s (Event.pollResult status)).pollPending
            = some interval ∧
        (step interval downloadDir s (Event.pollResult status)).outcome
            = none) ∧
    (status.processed = true → status.valid = false →
        (step interval downloadDir s (Event.pollResult status)).outcome
            = some (Except.ok (validationFailedResult status.validation_url)) ∧
        (validationFailedResult status.validation_url).errorCode
            = some SignErrorCode.VALIDATION_FAILED ∧
        (validationFailedResult status.validation_url).errorDetails
            = some status.validation_url) ∧
    (status.processed = true → status.valid = true →
        (step interval downloadDir s (Event.pollResult status)).phase
            = Phase.signing ∧
        (step interval downloadDir s (Event.pollResult status)).outcome
            = none) := by
  obtain ⟨ph, ls, pp, ap, aa, oc⟩ := s
  simp only [Session.mk.injEq] at hu hp ⊢
  subst hu
  subst hp
  refine ⟨fun h1 => ?_, fun h1 h2 => ?_, fun h1 h2 => ?_⟩
  · simp [step, h1]
  · simp [step, h1, h2, validationFailedResult]
  · simp [step, h1, h2]

/-- C1 witness: the three cases at concrete inputs. -/
theorem validating_poll_classification_witness :
    ((step 1000 "." initSession (Event.pollResult
        { guid := "g", active := false, automated_signing := some true,
          files := [], processed := false, reviewed := false, valid := false,
          validation_url := "http://amo/validation" })).pollPending
      = some 1000) ∧
    ((step 1000 "." initSession (Event.pollResult
        { guid := "g", active := false, automated_signing := some true,
          files := [], processed := true, reviewed := false, valid := false,
          validation_url := "http://amo/validation" })).outcome
      = some (Except.ok (validationFailedResult "http://amo/validation"))) ∧
    ((step 1000 "." initSession (Event.pollResult
        { guid := "g", active := false, automated_signing := some true,
          files := [], processed := true, reviewed := false, valid := true,
          validation_url := "http://amo/validation" })).phase
      = Phase.signing) := by
  refine ⟨?_, ?_, ?_⟩
  · exact ((validating_poll_classification 1000 "." initSession _ rfl rfl).1
      rfl).2.1
  · exact ((validating_poll_classification 1000 "." initSession _ rfl rfl).2.1
      rfl rfl).1
  · exact ((validating_poll_classification 1000 "." initSession _ rfl rfl).2.2
      rfl rfl).1

/-- C2: the classification is a total function of the report and the current
phase — for every phase and status report, exactly one
resolve/schedule/advance site of the two classifiers is selected: never two
outcomes for the same report, and never zero. -/
theorem classifier_selects_unique_outcome (ph : Phase) (status : SigningStatus) :
    ∃! o : Outcome, Selects ph status o := by
  cases ph with
  | validating =>
      by_cases hp : status.processed = true
      · by_cases hv : status.valid = true
        · exact ⟨Outcome.keepPolling Phase.signing,
            Selects.advanceToSigning status hp hv,
            fun o ho => by cases ho <;> simp_all⟩
        · have hv' : status.valid = false := by
            cases h : status.valid
            · rfl
            · exact absurd h hv
          exact ⟨Outcome.doneInvalid status.validation_url,
            Selects.invalid status hp hv',
            fun o ho => by cases ho <;> simp_all⟩
      · have hp' : status.processed = false := by
          cases h : status.processed
          · rfl
          · exact absurd h hp
        exact ⟨Outcome.keepPolling Phase.validating,
          Selects.remainValidating status hp',
          fun o ho => by cases ho <;> simp_all⟩
  | signing =>
      by_cases hm : requiresManualReview status = true
      · exact ⟨Outcome.doneNeedsReview,
          Selects.needsReview status (by simp [hm]) hm,
          fun o ho => by cases ho <;> simp_all⟩
      · have hm' : requiresManualReview status = false := by
          cases h : requiresManualReview status
          · rfl
          · exact absurd h hm
        by_cases hr : signedAndReady status = true
        · exact ⟨Outcome.doneSuccess status.guid status.files,
            Selects.success status (by simp [hr]) hm' hr,
            fun o ho => by cases ho <;> simp_all⟩
        · have hr' : signedAndReady status = false := by
            cases h : signedAndReady status
            · rfl
            · exact absurd h hr
          exact ⟨Outcome.keepPolling Phase.signing,
            Selects.remainSigning status (by simp [hm', hr']),
            fun o ho => by cases ho <;> simp_all⟩

/-- C3 counterexample: a report whose `automated_signing` field is absent
(`none`) and which is valid, active, reviewed and has a file is classified
`DONE_NEEDS_REVIEW` by the current `checkSignedStatus` — not `DONE_SUCCESS`,
contradicting the claim that an absent field is treated as auto-signable
(`!canBeAutoSigned` is true for `undefined`, making `requiresManualReview`
hold and short-circuit the success branch). -/
theorem absent_auto_signing_counterexample :
    checkSignedStatus
        { guid := "an-addon-guid", active := true, automated_signing := none,
          files := [{ signed := true,
                      download_url := "http://amo/some-signed-file-1.2.3.xpi" }],
          processed := true, reviewed := true, valid := true,
          validation_url := "http://amo/validation-results/" }
      = Outcome.doneNeedsReview ∧
    Outcome.doneNeedsReview
      ≠ Outcome.doneSuccess "an-addon-guid"
          [{ signed := true,
             download_url := "http://amo/some-signed-file-1.2.3.xpi" }] :=
  ⟨rfl, by simp⟩

/-- C3 amended: the current `checkSignedStatus` treats an absent
`automated_signing` field as not auto-signable — every valid report with the
field absent is classified `DONE_NEEDS_REVIEW` (never `DONE_SUCCESS`), even
when active, reviewed and with files.  (Only the older `checkSignedStatus`,
with its `apiReportsAutoSigning` guard, treated absence as
auto-signable.) -/
theorem absent_auto_signing_needs_review (status : SigningStatus)
    (ha : status.automated_signing = none) (hv : status.valid = true) :
    checkSignedStatus status = Outcome.doneNeedsReview := by
  simp [checkSignedStatus, requiresManualReview, ha, hv, optBoolTruthy]

/-- C3 amended witness. -/
theorem absent_auto_signing_needs_review_witness :
    checkSignedStatus
        { guid := "g", active := false, automated_signing := none,
          files := [], processed := true, reviewed := false, valid := true,
          validation_url := "u" }
      = Outcome.doneNeedsReview :=
  absent_auto_signing_needs_review _ rfl rfl

/-- The older `checkSignedStatus` (first half of `amo-client.js`) did behave
as the claim states: with `automated_signing` absent it never classified a
report as needing review, and a processed, valid, active, reviewed report
with files was classified as success. -/
theorem old_classifier_absent_auto_signing (data : SigningStatus)
    (ha : data.automated_signing = none) :
    checkSignedStatusOld data ≠ Outcome.doneNeedsReview ∧
    (data.processed = true → data.valid = true → data.active = true →
        data.reviewed = true → data.files.isEmpty = false →
        checkSignedStatusOld data = Outcome.doneSuccess data.guid data.files) := by
  constructor
  · simp only [checkSignedStatusOld, apiReportsAutoSigning, ha]
    cases hp : data.processed <;>
      cases hr : signedAndReady data <;>
        cases hv : data.valid <;> simp
  · intro h1 h2 h3 h4 h5
    have hr : signedAndReady data = true := by
      simp [signedAndReady, h2, h3, h4, h5]
    simp [checkSignedStatusOld, apiReportsAutoSigning, ha, h1, h2, hr]

/-- Witness for the older classifier's behaviour. -/
theorem old_classifier_absent_auto_signing_witness :
    checkSignedStatusOld
        { guid := "an-addon-guid", active := true, automated_signing := none,
          files := [{ signed := true, download_url := "http://amo/f.xpi" }],
          processed := true, reviewed := true, valid := true,
          validation_url := "u" }
      = Outcome.doneSuccess "an-addon-guid"
          [{ signed := true, download_url := "http://amo/f.xpi" }] :=
  (old_classifier_absent_auto_signing _ rfl).2 rfl rfl rfl rfl rfl

/-- C4 counterexample: a report with an empty `files` list that is valid,
active, reviewed and not auto-signable is classified terminal
`DONE_NEEDS_REVIEW` — the poller does not remain in the SIGNING phase, so
"remains in SIGNING until files is non-empty" fails as a universal
statement. -/
theorem empty_files_counterexample :
    checkSignedStatus
        { guid := "an-addon-guid", active := true,
          automated_signing := some false, files := [], processed := true,
          reviewed := true, valid := true,
          validation_url := "http://amo/validation-results/" }
      = Outcome.doneNeedsReview ∧
    checkSignedStatus
        { guid := "an-addon-guid", active := true,
          automated_signing := some false, files := [], processed := true,
          reviewed := true, valid := true,
          validation_url := "http://amo/validation-results/" }
      ≠ Outcome.keepPolling Phase.signing :=
  ⟨rfl, by decide⟩

/-- C4 amended: a report with an empty `files` list is never classified as
terminal success, even when `active` and `reviewed` are both true; the
poller remains in the SIGNING phase and schedules another poll unless the
report is valid and not auto-signable, in which case it is classified
`DONE_NEEDS_REVIEW`. -/
theorem empty_files_never_success (status : SigningStatus)
    (hf : status.files = []) :
    (∀ g fs, checkSignedStatus status ≠ Outcome.doneSuccess g fs) ∧
    (requiresManualReview status = false →
        checkSignedStatus status = Outcome.keepPolling Phase.signing) ∧
    (requiresManualReview status = true →
        checkSignedStatus status = Outcome.doneNeedsReview) := by
  have hsr : signedAndReady status = false := by
    simp [signedAndReady, hf]
  refine ⟨fun g fs => ?_, fun hm => ?_, fun hm => ?_⟩ <;>
    cases hm' : requiresManualReview status <;>
      simp_all [checkSignedStatus, hsr]

/-- C4 amended witness (empty files, auto-signable: keeps polling). -/
theorem empty_files_never_success_witness :
    checkSignedStatus
        { guid := "g", active := true, automated_signing := some true,
          files := [], processed := true, reviewed := true, valid := true,
          validation_url := "u" }
      = Outcome.keepPolling Phase.signing :=
  (empty_files_never_success _ rfl).2.1 rfl

/-- C5: classification of the submit response by `sign()`.  A status in
`{200, 201, 202}` with no truthy body-level error proceeds to poll the
returned status-check URL; a truthy body-level error message — whatever the
status — resolves (does not throw) a result with `success: false`,
`errorCode: SERVER_FAILURE` and the message as `errorDetails`; a status
outside `{200, 201, 202}` with no error message throws. -/
theorem submit_response_classification (statusCode : Nat) (body : SubmitBody) :
    (([200, 201, 202] : List Nat).contains statusCode = true →
        optStrTruthy body.error = false →
        signSubmitStep statusCode body = SubmitStep.poll body.url) ∧
    (∀ s, body.error = some s → s ≠ "" →
        signSubmitStep statusCode body
            = SubmitStep.resolved (serverFailureResult s) ∧
        (serverFailureResult s).success = false ∧
        (serverFailureResult s).errorCode = some SignErrorCode.SERVER_FAILURE ∧
        (serverFailureResult s).errorDetails = some s) ∧
    (([200, 201, 202] : List Nat).contains statusCode = false →
        optStrTruthy body.error = false →
        signSubmitStep statusCode body = SubmitStep.thrown statusCode) := by
  refine ⟨fun hs he => ?_, fun s hs hne => ?_, fun hs he => ?_⟩
  · simp only [signSubmitStep]
    rw [hs, he]
    simp
  · refine ⟨?_, rfl, rfl, rfl⟩
    simp only [signSubmitStep]
    rw [hs]
    simp [optStrTruthy, hne]
  · obtain hn | hes : body.error = none ∨ body.error = some "" := by
      cases hb : body.error with
      | none => exact Or.inl rfl
      | some s =>
          rw [hb] at he
          simp only [optStrTruthy, bne_eq_false_iff_eq] at he
          exact Or.inr (by rw [he])
    · simp only [signSubmitStep]
      rw [hs, hn]
      simp [optStrTruthy]
    · simp only [signSubmitStep]
      rw [hs, hes]
      simp [optStrTruthy]

/-- C5 witness: the three cases at concrete inputs. -/
theorem submit_response_classification_witness :
    signSubmitStep 201 ⟨none, "/status/1"⟩ = SubmitStep.poll "/status/1" ∧
    signSubmitStep 400 ⟨some "boom", "/s"⟩
        = SubmitStep.resolved (serverFailureResult "boom") ∧
    signSubmitStep 500 ⟨none, "/s"⟩ = SubmitStep.thrown 500 :=
  ⟨(submit_response_classification 201 ⟨none, "/status/1"⟩).1 (by decide) rfl,
   ((submit_response_classification 400 ⟨some "boom", "/s"⟩).2.1 "boom" rfl
      (by decide)).1,
   (submit_response_classification 500 ⟨none, "/s"⟩).2.2 (by decide) rfl⟩

/-- The `forEach` loop of `downloadSignedFiles` queues, onto whatever was
already accumulated, one download per `signed` file in order. -/
theorem queueDownloads_loop (files : List File) :
    ∀ p : List String × Bool,
      (files.foldl
          (fun acc file =>
            if file.signed then (acc.1 ++ [file.download_url], acc.2)
            else (acc.1, true)) p).1
        = p.1 ++ (files.filter (fun f => f.signed)).map
            (fun f => f.download_url) := by
  induction files with
  | nil => intro p; simp
  | cons f rest ih =>
      intro p
      cases hf : f.signed <;>
        simp [List.foldl_cons, List.filter_cons, hf, ih]

/-- The downloads queued by `downloadSignedFiles` are exactly the
`download_url`s of the `signed` files, in order. -/
theorem queueDownloads_eq (files : List File) :
    (queueDownloads files).1
      = (files.filter (fun f => f.signed)).map (fun f => f.download_url) := by
  simpa using queueDownloads_loop files ([], false)

/-- C6: the method `downloadSignedFiles` downloads exactly the descriptors with
`signed: true` (unsigned ones are skipped); when zero entries are signed —
even in a non-empty list — it rejects with the no-signed-files error having
issued zero download requests; and for 3 descriptors of which exactly 1 is
unsigned, exactly 2 downloads are started and the call succeeds. -/
theorem download_exactly_signed (downloadDir : String) (files : List File) :
    (queueDownloads files).1
        = (files.filter (fun f => f.signed)).map (fun f => f.download_url) ∧
    ((files.filter (fun f => f.signed)).length = 0 →
        (queueDownloads files).1 = [] ∧
        downloadSignedFiles downloadDir files
            = Except.error noSignedFilesMessage) ∧
    (files.length = 3 → (files.filter (fun f => !f.signed)).length = 1 →
        (queueDownloads files).1.length = 2 ∧
        ∃ r, downloadSignedFiles downloadDir files = Except.ok r) := by
  have hq := queueDownloads_eq files
  refine ⟨hq, fun h0 => ?_, fun h3 h1 => ?_⟩
  · have hnil : (queueDownloads files).1 = [] := by
      rw [hq]
      simp [List.length_eq_zero.mp h0]
    refine ⟨hnil, ?_⟩
    simp [downloadSignedFiles, hnil]
  · have hlen : (queueDownloads files).1.length = 2 := by
      rw [hq, List.length_map]
      have := List.length_eq_length_filter_add (l := files)
        (fun f => f.signed)
      omega
    refine ⟨hlen, ?_⟩
    simp only [downloadSignedFiles]
    rw [hlen]
    simp

/-- C6 witness: three descriptors, one unsigned. -/
theorem download_exactly_signed_witness :
    (queueDownloads
        [{ signed := true, download_url := "http://amo/a.xpi" },
         { signed := false, download_url := "http://amo/b.xpi" },
         { signed := true, download_url := "http://amo/c.xpi" }]).1.length = 2 ∧
    (queueDownloads [{ signed := false, download_url := "http://amo/b.xpi" }]).1
        = [] := by
  constructor
  · exact ((download_exactly_signed "."
      [{ signed := true, download_url := "http://amo/a.xpi" },
       { signed := false, download_url := "http://amo/b.xpi" },
       { signed := true, download_url := "http://amo/c.xpi" }]).2.2 rfl
        (by decide)).1
  · exact ((download_exactly_signed "."
      [{ signed := false, download_url := "http://amo/b.xpi" }]).2.1
        (by decide)).1

/-- C7: every `SignResult` the workflow can resolve with has a non-null
`downloadedFiles` exactly when `success` is true, and every result carrying
an error code has `success: false` and a null `downloadedFiles`. -/
theorem result_files_iff_success (res : SignResult)
    (h : WorkflowResult res) :
    (res.downloadedFiles ≠ none ↔ res.success = true) ∧
    (res.errorCode ≠ none →
        res.success = false ∧ res.downloadedFiles = none) := by
  cases h with
  | serverFailure msg => simp [serverFailureResult]
  | validationFailed validationUrl => simp [validationFailedResult]
  | needsReview => simp [needsReviewResult]
  | signedSuccess guid downloadDir files r hdl =>
      simp only [downloadSignedFiles] at hdl
      split at hdl
      · injection hdl with hdl
        subst hdl
        simp
      · exact absurd hdl (by simp)

/-- C7 witness. -/
theorem result_files_iff_success_witness :
    ((serverFailureResult "boom").downloadedFiles ≠ none
        ↔ (serverFailureResult "boom").success = true) ∧
    ((serverFailureResult "boom").errorCode ≠ none →
        (serverFailureResult "boom").success = false ∧
        (serverFailureResult "boom").downloadedFiles = none) :=
  result_files_iff_success _ (WorkflowResult.serverFailure "boom")

/-- C8: if the abort timer fires on an unsettled session, the session
rejects (settles with a thrown error, never a structured `SignResult`), the
pending next-poll timer is cancelled, and the error message embeds the last
status report seen so far — stringified and truncated by `formatResponse` —
or the `[null]` placeholder when no report was ever received. -/
theorem abort_timer_rejects (interval : Nat) (downloadDir : String)
    (s : Session) (hu : s.outcome = none) (ha : s.abortPending = true) :
    (step interval downloadDir s Event.abortFires).outcome
        = some (Except.error (timeoutMessage s.lastStatus)) ∧
    (step interval downloadDir s Event.abortFires).pollPending = none ∧
    (∀ r : SignResult,
        (step interval downloadDir s Event.abortFires).outcome
          ≠ some (Except.ok r)) ∧
    (s.lastStatus = none →
        timeoutMessage s.lastStatus
          = "Signing took too long to complete; last status: [null]") ∧
    (∀ st, s.lastStatus = some st →
        timeoutMessage s.lastStatus
          = "Signing took too long to complete; last status: "
              ++ formatResponse st.toJson) := by
  obtain ⟨ph, ls, pp, ap, aa, oc⟩ := s
  simp only [Session.mk.injEq] at hu ha ⊢
  subst hu
  subst ha
  refine ⟨by simp [step], by simp [step], fun r => by simp [step],
    fun hn => ?_, fun st hst => ?_⟩
  · subst hn
    have h6 : ("[null]" : String).length = 6 := rfl
    simp [timeoutMessage, formatResponse, h6]
  · subst hst
    rfl

/-- C8 witness: the abort timer firing right after entry. -/
theorem abort_timer_rejects_witness :
    (step 1000 "." initSession Event.abortFires).outcome
      = some (Except.error
          "Signing took too long to complete; last status: [null]") := by
  have h := abort_timer_rejects 1000 "." initSession rfl rfl
  rw [h.1, h.2.2.2.1 rfl]

/-- C9 counterexample: on a concrete VALIDATING poll that is processed and
valid, the session advances to the SIGNING phase with `abortArms` still `1`
and the abort timer unchanged — no fresh abort timer is armed for the
SIGNING phase, contradicting the claim that each phase gets its own timer
armed on the transition. -/
theorem fresh_abort_timer_counterexample :
    (step 1000 "." initSession (Event.pollResult
        { guid := "g", active := false, automated_signing := some true,
          files := [], processed := true, reviewed := false, valid := true,
          validation_url := "u" })).phase = Phase.signing ∧
    (step 1000 "." initSession (Event.pollResult
        { guid := "g", active := false, automated_signing := some true,
          files := [], processed := true, reviewed := false, valid := true,
          validation_url := "u" })).abortArms = initSession.abortArms ∧
    initSession.abortArms = 1 :=
  ⟨rfl, rfl, rfl⟩

/-- C9 amended: on the VALIDATING → SIGNING transition no fresh abort timer
is armed — the single abort timer armed at `waitForSignedAddon` entry (with
the one configured duration) keeps governing the SIGNING phase, and no
session event ever arms another abort timer. -/
theorem single_abort_timer_across_phases (interval : Nat)
    (downloadDir : String) (s : Session) (status : SigningStatus)
    (hu : s.outcome = none) (hp : s.phase = Phase.validating)
    (h1 : status.processed = true) (h2 : status.valid = true) :
    (step interval downloadDir s (Event.pollResult status)).phase
        = Phase.signing ∧
    (step interval downloadDir s (Event.pollResult status)).abortArms
        = s.abortArms ∧
    (step interval downloadDir s (Event.pollResult status)).abortPending
        = s.abortPending ∧
    (∀ e : Event, (step interval downloadDir s e).abortArms = s.abortArms) := by
  obtain ⟨ph, ls, pp, ap, aa, oc⟩ := s
  simp only [Session.mk.injEq] at hu hp ⊢
  subst hu
  subst hp
  refine ⟨by simp [step, h1, h2], by simp [step, h1, h2],
    by simp [step, h1, h2], fun e => ?_⟩
  cases e with
  | abortFires => cases ap <;> simp [step]
  | pollError msg => simp [step]
  | pollResult st =>
      cases hps : st.processed <;> cases hv : st.valid <;>
        simp [step, hps, hv]

/-- C9 amended witness. -/
theorem single_abort_timer_across_phases_witness :
    (step 1000 "." initSession (Event.pollResult
        { guid := "g", active := false, automated_signing := some true,
          files := [], processed := true, reviewed := false, valid := true,
          validation_url := "u" })).abortArms = initSession.abortArms :=
  (single_abort_timer_across_phases 1000 "." initSession _ rfl rfl rfl
    rfl).2.1

/-!
### Frame lemmas for `debug()`

The copies made by `deepcopy` live entirely at addresses at or above the
length of the original heap, and `redact` only ever writes through
references, so it never touches an address below that boundary.
-/

/-- A value only references addresses at or above `bnd`. -/
def valBound (bnd : Nat) : Val → Prop
  | Val.ref a => bnd ≤ a
  | _ => True

/-- Every field value of an object only references addresses at or above
`bnd`. -/
def objBound (bnd : Nat) (obj : Obj) : Prop :=
  ∀ p ∈ obj, valBound bnd p.2

/-- Every object stored at an address at or above `bnd` only references
addresses at or above `bnd`. -/
def heapClosedFrom (bnd : Nat) (h : Heap) : Prop :=
  ∀ a, bnd ≤ a → objBound bnd (h.getD a [])

theorem valBound_mono {m n : Nat} (hmn : n ≤ m) :
    ∀ {v : Val}, valBound m v → valBound n v
  | Val.ref _, hv => Nat.le_trans hmn hv
  | Val.undef, _ => trivial
  | Val.null, _ => trivial
  | Val.bool _, _ => trivial
  | Val.num _, _ => trivial
  | Val.str _, _ => trivial

theorem objBound_mono {m n : Nat} (hmn : n ≤ m) {obj : Obj}
    (hb : objBound m obj) : objBound n obj :=
  fun p hp => valBound_mono hmn (hb p hp)

/-- The copy of each field of an object extends the heap and only creates
values and objects referencing the new region. -/
theorem copyFields_spec_of (fuel : Nat)
    (hval : ∀ h v, ∃ ext, (copyVal fuel h v).1 = h ++ ext ∧
        valBound h.length (copyVal fuel h v).2 ∧
        ∀ obj ∈ ext, objBound h.length obj) :
    ∀ (obj : Obj) (h : Heap), ∃ ext, (copyFields fuel h obj).1 = h ++ ext ∧
        objBound h.length (copyFields fuel h obj).2 ∧
        ∀ o ∈ ext, objBound h.length o := by
  intro obj
  induction obj with
  | nil =>
      intro h
      exact ⟨[], by simp [copyFields], by simp [copyFields, objBound], by simp⟩
  | cons kv rest ih =>
      intro h
      obtain ⟨k, v⟩ := kv
      obtain ⟨e1, he1, hv1, hobj1⟩ := hval h v
      obtain ⟨e2, he2, hf2, hobj2⟩ := ih (copyVal fuel h v).1
      have hlen : (copyVal fuel h v).1.length = h.length + e1.length := by
        rw [he1]
        simp
      refine ⟨e1 ++ e2, ?_, ?_, ?_⟩
      · simp only [copyFields]
        rw [he2, he1]
        simp
      · simp only [copyFields, objBound]
        intro p hp
        rcases List.mem_cons.mp hp with h1 | h1
        · subst h1
          exact hv1
        · exact valBound_mono (by omega) (hf2 p h1)
      · intro o ho
        rcases List.mem_append.mp ho with h1 | h1
        · exact hobj1 o h1
        · exact objBound_mono (by omega) (hobj2 o h1)

/-- The copy made by `deepcopy` extends the heap: the original addresses are untouched, the
returned root and every allocated object reference only the new region. -/
theorem copyVal_spec : ∀ (fuel : Nat) (h : Heap) (v : Val),
    ∃ ext, (copyVal fuel h v).1 = h ++ ext ∧
        valBound h.length (copyVal fuel h v).2 ∧
        ∀ obj ∈ ext, objBound h.length obj := by
  intro fuel
  induction fuel with
  | zero =>
      intro h v
      cases v <;> exact ⟨[], by simp [copyVal], by simp [copyVal, valBound], by simp⟩
  | succ n ih =>
      intro h v
      cases v with
      | undef => exact ⟨[], by simp [copyVal], by simp [copyVal, valBound], by simp⟩
      | null => exact ⟨[], by simp [copyVal], by simp [copyVal, valBound], by simp⟩
      | bool b => exact ⟨[], by simp [copyVal], by simp [copyVal, valBound], by simp⟩
      | num m => exact ⟨[], by simp [copyVal], by simp [copyVal, valBound], by simp⟩
      | str s => exact ⟨[], by simp [copyVal], by simp [copyVal, valBound], by simp⟩
      | ref a =>
          obtain ⟨e, he, hobj, hext⟩ := copyFields_spec_of n ih (h.getD a []) h
          refine ⟨e ++ [(copyFields n h (h.getD a [])).2], ?_, ?_, ?_⟩
          · simp only [copyVal]
            rw [he]
            simp
          · simp only [copyVal, valBound]
            rw [he]
            simp
          · intro o ho
            rcases List.mem_append.mp ho with h1 | h1
            · exact hext o h1
            · rw [List.mem_singleton.mp h1]
              exact hobj

/-- A looked-up field of a bounded object is bounded. -/
theorem lookupField_bound {bnd : Nat} {obj : Obj} (hb : objBound bnd obj)
    (key : String) : valBound bnd (lookupField obj key) := by
  unfold lookupField
  cases hf : obj.find? (fun p => p.1 == key) with
  | none => trivial
  | some p => exact hb p (List.mem_of_find?_eq_some hf)

/-- Overwriting a field with a bounded value keeps an object bounded. -/
theorem setField_bound {bnd : Nat} {obj : Obj} (hb : objBound bnd obj)
    (key : String) {v : Val} (hv : valBound bnd v) :
    objBound bnd (setField obj key v) := by
  intro p hp
  simp only [setField, List.mem_map] at hp
  obtain ⟨q, hq, hpq⟩ := hp
  by_cases hk : (q.1 == key) = true
  · rw [if_pos hk] at hpq
    rw [← hpq]
    exact hv
  · rw [if_neg hk] at hpq
    rw [← hpq]
    exact hb q hq

/-- The header-scrubbing pass only writes string values, so it keeps an
object bounded. -/
theorem redactHeaderKeys_bound {bnd : Nat} :
    ∀ (l : List String) (obj : Obj), objBound bnd obj →
      objBound bnd (l.foldl
        (fun o hdr =>
          if jsTruthy (lookupField o hdr) then
            setField o hdr (Val.str "<REDACTED>")
          else o) obj) := by
  intro l
  induction l with
  | nil => intro obj hb; exact hb
  | cons hd tl ih =>
      intro obj hb
      simp only [List.foldl_cons]
      apply ih
      by_cases ht : jsTruthy (lookupField obj hd) = true
      · rw [if_pos ht]
        exact setField_bound hb hd trivial
      · rw [if_neg ht]
        exact hb

/-- Writing a bounded object at an address at or above the boundary keeps
the heap closed and the region below the boundary untouched. -/
theorem set_high_frame {bnd : Nat} {h : Heap} (hc : heapClosedFrom bnd h)
    {ha : Nat} (hha : bnd ≤ ha) {obj : Obj} (hobj : objBound bnd obj) :
    (∀ i, i < bnd → (h.set ha obj)[i]? = h[i]?) ∧
    heapClosedFrom bnd (h.set ha obj) := by
  constructor
  · intro i hi
    exact List.getElem?_set_ne (by omega)
  · intro a haa
    rw [List.getD_eq_getElem?_getD]
    by_cases he : a = ha
    · subst he
      by_cases hlt : a < h.length
      · rw [List.getElem?_set_self hlt]
        exact hobj
      · rw [List.getElem?_eq_none (by simpa using hlt)]
        intro p hp
        exact absurd hp (List.not_mem_nil p)
    · rw [List.getElem?_set_ne (fun hh => he hh.symm)]
      have := hc a haa
      rw [List.getD_eq_getElem?_getD] at this
      exact this

/-- The redaction never touches an address below a boundary when its argument
and the heap region above the boundary only reference addresses above it,
and it keeps that region closed. -/
theorem redact_frame (bnd : Nat) : ∀ fuel : Nat,
    (∀ (h : Heap) (v : Val), valBound bnd v → heapClosedFrom bnd h →
        (∀ i, i < bnd → (redactVal fuel h v)[i]? = h[i]?) ∧
        heapClosedFrom bnd (redactVal fuel h v)) ∧
    (∀ (obj : Obj) (h : Heap), objBound bnd obj → heapClosedFrom bnd h →
        (∀ i, i < bnd → (redactFields fuel h obj)[i]? = h[i]?) ∧
        heapClosedFrom bnd (redactFields fuel h obj)) := by
  intro fuel
  induction fuel with
  | zero =>
      have hval : ∀ (h : Heap) (v : Val), valBound bnd v →
          heapClosedFrom bnd h →
          (∀ i, i < bnd → (redactVal 0 h v)[i]? = h[i]?) ∧
          heapClosedFrom bnd (redactVal 0 h v) := by
        intro h v _ hc
        constructor
        · intro i _
          simp [redactVal]
        · intro a haa
          simp only [redactVal]
          exact hc a haa
      refine ⟨hval, ?_⟩
      intro obj
      induction obj with
      | nil =>
          intro h _ hc
          constructor
          · intro i _
            simp [redactFields]
          · intro a haa
            simp only [redactFields]
            exact hc a haa
      | cons kv rest ih0 =>
          intro h hb hc
          obtain ⟨k, v⟩ := kv
          have hbt : objBound bnd rest :=
            fun p hp => hb p (List.mem_cons_of_mem _ hp)
          have hv : valBound bnd v := hb (k, v) (List.mem_cons_self _ _)
          obtain ⟨hf1, hc1⟩ := hval h v hv hc
          obtain ⟨hf2, hc2⟩ := ih0 (redactVal 0 h v) hbt hc1
          constructor
          · intro i hi
            rw [show redactFields 0 h ((k, v) :: rest)
                = redactFields 0 (redactVal 0 h v) rest from by
              simp [redactFields]]
            rw [hf2 i hi, hf1 i hi]
          · rw [show redactFields 0 h ((k, v) :: rest)
                = redactFields 0 (redactVal 0 h v) rest from by
              simp [redactFields]]
            exact hc2
  | succ n ih =>
      have hval : ∀ (h : Heap) (v : Val), valBound bnd v →
          heapClosedFrom bnd h →
          (∀ i, i < bnd → (redactVal (n + 1) h v)[i]? = h[i]?) ∧
          heapClosedFrom bnd (redactVal (n + 1) h v) := by
        intro h v hv hc
        cases v with
        | ref a =>
            have hobj : objBound bnd (h.getD a []) := hc a hv
            have key : ∀ h1 : Heap,
                (∀ i, i < bnd → h1[i]? = h[i]?) → heapClosedFrom bnd h1 →
                (∀ i, i < bnd →
                    (redactFields n h1 (h1.getD a []))[i]? = h[i]?) ∧
                heapClosedFrom bnd (redactFields n h1 (h1.getD a [])) := by
              intro h1 hf1 hc1
              obtain ⟨hf2, hc2⟩ := ih.2 (h1.getD a []) h1 (hc1 a hv) hc1
              exact ⟨fun i hi => (hf2 i hi).trans (hf1 i hi), hc2⟩
            have hred : redactVal (n + 1) h (Val.ref a)
                = redactFields n
                    (match lookupField (h.getD a []) "headers" with
                     | Val.ref ha => h.set ha (redactHeaderKeys (h.getD ha []))
                     | _ => h)
                    ((match lookupField (h.getD a []) "headers" with
                      | Val.ref ha => h.set ha (redactHeaderKeys (h.getD ha []))
                      | _ => h).getD a []) := by
              simp [redactVal]
            rw [hred]
            cases hlk : lookupField (h.getD a []) "headers" with
            | ref ha =>
                have hha : bnd ≤ ha := by
                  have := lookupField_bound hobj "headers"
                  rw [hlk] at this
                  exact this
                have hrb : objBound bnd (redactHeaderKeys (h.getD ha [])) :=
                  redactHeaderKeys_bound redactedHeaders _ (hc ha hha)
                obtain ⟨hf1, hc1⟩ := set_high_frame hc hha hrb
                exact key _ hf1 hc1
            | undef => exact key h (fun i _ => rfl) hc
            | null => exact key h (fun i _ => rfl) hc
            | bool b => exact key h (fun i _ => rfl) hc
            | num m => exact key h (fun i _ => rfl) hc
            | str s => exact key h (fun i _ => rfl) hc
        | undef => exact ⟨fun i _ => by simp [redactVal], by
            intro a haa
            simp only [redactVal]
            exact hc a haa⟩
        | null => exact ⟨fun i _ => by simp [redactVal], by
            intro a haa
            simp only [redactVal]
            exact hc a haa⟩
        | bool b => exact ⟨fun i _ => by simp [redactVal], by
            intro a haa
            simp only [redactVal]
            exact hc a haa⟩
        | num m => exact ⟨fun i _ => by simp [redactVal], by
            intro a haa
            simp only [redactVal]
            exact hc a haa⟩
        | str s => exact ⟨fun i _ => by simp [redactVal], by
            intro a haa
            simp only [redactVal]
            exact hc a haa⟩
      refine ⟨hval, ?_⟩
      intro obj
      induction obj with
      | nil =>
          intro h _ hc
          constructor
          · intro i _
            simp [redactFields]
          · intro a haa
            simp only [redactFields]
            exact hc a haa
      | cons kv rest ih0 =>
          intro h hb hc
          obtain ⟨k, v⟩ := kv
          have hbt : objBound bnd rest :=
            fun p hp => hb p (List.mem_cons_of_mem _ hp)
          have hv : valBound bnd v := hb (k, v) (List.mem_cons_self _ _)
          obtain ⟨hf1, hc1⟩ := hval h v hv hc
          obtain ⟨hf2, hc2⟩ := ih0 (redactVal (n + 1) h v) hbt hc1
          constructor
          · intro i hi
            rw [show redactFields (n + 1) h ((k, v) :: rest)
                = redactFields (n + 1) (redactVal (n + 1) h v) rest from by
              simp [redactFields]]
            rw [hf2 i hi, hf1 i hi]
          · rw [show redactFields (n + 1) h ((k, v) :: rest)
                = redactFields (n + 1) (redactVal (n + 1) h v) rest from by
              simp [redactFields]]
            exact hc2

/-- A heap extended with objects that only reference the new region is
closed above the old length. -/
theorem append_closed {h ext : Heap}
    (hext : ∀ o ∈ ext, objBound h.length o) :
    heapClosedFrom h.length (h ++ ext) := by
  intro a haa
  rw [List.getD_eq_getElem?_getD, List.getElem?_append_right haa]
  cases hg : ext[a - h.length]? with
  | none =>
      intro p hp
      exact absurd hp (List.not_mem_nil p)
  | some o =>
      exact hext o (List.getElem?_mem hg)

/-- The redaction preserves the length of the heap (it only overwrites existing
objects). -/
theorem redact_length : ∀ fuel : Nat,
    (∀ (h : Heap) (v : Val), (redactVal fuel h v).length = h.length) ∧
    (∀ (obj : Obj) (h : Heap), (redactFields fuel h obj).length = h.length) := by
  intro fuel
  induction fuel with
  | zero =>
      have hval : ∀ (h : Heap) (v : Val),
          (redactVal 0 h v).length = h.length := by
        intro h v
        simp [redactVal]
      refine ⟨hval, ?_⟩
      intro obj
      induction obj with
      | nil =>
          intro h
          simp [redactFields]
      | cons kv rest ih0 =>
          intro h
          obtain ⟨k, v⟩ := kv
          rw [show redactFields 0 h ((k, v) :: rest)
              = redactFields 0 (redactVal 0 h v) rest from by
            simp [redactFields]]
          rw [ih0, hval]
  | succ n ih =>
      have hval : ∀ (h : Heap) (v : Val),
          (redactVal (n + 1) h v).length = h.length := by
        intro h v
        cases v with
        | ref a =>
            rw [show redactVal (n + 1) h (Val.ref a)
                = redactFields n
                    (match lookupField (h.getD a []) "headers" with
                     | Val.ref ha =>
                         h.set ha (redactHeaderKeys (h.getD ha []))
                     | _ => h)
                    ((match lookupField (h.getD a []) "headers" with
                      | Val.ref ha =>
                          h.set ha (redactHeaderKeys (h.getD ha []))
                      | _ => h).getD a []) from by
              simp [redactVal]]
            rw [ih.2]
            cases hlk : lookupField (h.getD a []) "headers" <;> simp
        | undef => simp [redactVal]
        | null => simp [redactVal]
        | bool b => simp [redactVal]
        | num m => simp [redactVal]
        | str s => simp [redactVal]
      refine ⟨hval, ?_⟩
      intro obj
      induction obj with
      | nil =>
          intro h
          simp [redactFields]
      | cons kv rest ih0 =>
          intro h
          obtain ⟨k, v⟩ := kv
          rw [show redactFields (n + 1) h ((k, v) :: rest)
              = redactFields (n + 1) (redactVal (n + 1) h v) rest from by
            simp [redactFields]]
          rw [ih0, hval]

/-- Processing one argument of `debug()` leaves every pre-existing heap
address untouched (redaction happens on the fresh copy only) and never
shrinks the heap. -/
theorem debugArg_frame (fuel : Nat) (h : Heap) (v : Val) :
    (∀ i, i < h.length → ((debugArg fuel h v).1)[i]? = h[i]?) ∧
    h.length ≤ (debugArg fuel h v).1.length := by
  by_cases ht : typeofObject v = true
  · have e : debugArg fuel h v
        = (redactVal fuel (copyVal fuel h v).1 (copyVal fuel h v).2,
           (copyVal fuel h v).2) := by
      simp [debugArg, ht]
    rw [e]
    obtain ⟨ext, hext, hvb, hbnd⟩ := copyVal_spec fuel h v
    have hclosed : heapClosedFrom h.length (copyVal fuel h v).1 := by
      rw [hext]
      exact append_closed hbnd
    obtain ⟨hf, _⟩ := (redact_frame h.length fuel).1 (copyVal fuel h v).1
      (copyVal fuel h v).2 hvb hclosed
    constructor
    · intro i hi
      rw [hf i hi, hext, List.getElem?_append_left hi]
    · rw [(redact_length fuel).1, hext]
      simp
  · have e : debugArg fuel h v = (h, v) := by
      simp [debugArg, ht]
    rw [e]
    exact ⟨fun i _ => rfl, Nat.le_refl _⟩

/-- C10: the method `debug()` leaves every argument object unchanged — header
redaction is applied to a deep copy, so after the call every pre-existing
heap address (hence every field of every argument, however nested) still
holds its original value. -/
theorem debug_leaves_arguments_unchanged (fuel : Nat) (h : Heap)
    (args : List Val) :
    ∀ i, i < h.length → ((debugArgs fuel h args).1)[i]? = h[i]? := by
  induction args generalizing h with
  | nil =>
      intro i _
      simp [debugArgs]
  | cons v rest ih =>
      intro i hi
      have h1 := debugArg_frame fuel h v
      have e : (debugArgs fuel h (v :: rest)).1
          = (debugArgs fuel (debugArg fuel h v).1 rest).1 := by
        simp [debugArgs]
      rw [e]
      have hi2 : i < (debugArg fuel h v).1.length :=
        Nat.lt_of_lt_of_le hi h1.2
      rw [ih (debugArg fuel h v).1 i hi2]
      exact h1.1 i hi

/-- C10 witness: a heap with one argument object whose `headers` object
holds an `Authorization` value; the original objects are untouched. -/
theorem debug_leaves_arguments_unchanged_witness :
    1 < ([[("headers", Val.ref 1)],
          [("Authorization", Val.str "JWT secret")]] : Heap).length ∧
    ((debugArgs 5
        [[("headers", Val.ref 1)],
         [("Authorization", Val.str "JWT secret")]]
        [Val.ref 0]).1)[1]?
      = ([[("headers", Val.ref 1)],
          [("Authorization", Val.str "JWT secret")]] : Heap)[1]? :=
  ⟨by decide,
   debug_leaves_arguments_unchanged 5
     [[("headers", Val.ref 1)], [("Authorization", Val.str "JWT secret")]]
     [Val.ref 0] 1 (by decide)⟩

end SignAddon
